import Mathlib

/-
Verification development for modules/consensus/database.go of the Sia
consensus set: a shallow embedding of its bolt-backed storage layer
(chain index, block store, siacoin output ledger, file contract ledger
with expiration index, siafund ledger, delayed siacoin output buckets
and the one-time database initializer), together with proofs of the
specified properties.

The bolt transaction is modelled as an association list of named
buckets, each bucket an association list of byte-string keys to
byte-string values.  Every mutating Go helper returns
`Except String DB`: an `Except.error` models a panic (the fatal,
process-aborting sanity checks of database.go, plus the Go runtime
panics on nil-bucket dereference and out-of-range slicing), so an
error result means the enclosing transaction never commits and no
state is produced.  The debug build (build.DEBUG = true) is modelled,
matching the sanity-check discipline described in the file header.
-/

set_option autoImplicit false

abbrev Bytes := List Nat

abbrev Bucket := List (Bytes × Bytes)

abbrev DB := List (Bytes × Bucket)

/-! ### Bucket names (the ASCII bytes of the Go byte-slice constants) -/

/-- The bucket and key name BlockHeight. -/
def BlockHeight : Bytes := [66, 108, 111, 99, 107, 72, 101, 105, 103, 104, 116]

/-- The bucket name BlockPath. -/
def BlockPath : Bytes := [66, 108, 111, 99, 107, 80, 97, 116, 104]

/-- The bucket name BlockMap. -/
def BlockMap : Bytes := [66, 108, 111, 99, 107, 77, 97, 112]

/-- The bucket name SiacoinOutputs. -/
def SiacoinOutputs : Bytes := [83, 105, 97, 99, 111, 105, 110, 79, 117, 116, 112, 117, 116, 115]

/-- The bucket name FileContracts. -/
def FileContracts : Bytes := [70, 105, 108, 101, 67, 111, 110, 116, 114, 97, 99, 116, 115]

/-- The bucket name FileContractExpirations. -/
def FileContractExpirations : Bytes :=
  [70, 105, 108, 101, 67, 111, 110, 116, 114, 97, 99, 116,
   69, 120, 112, 105, 114, 97, 116, 105, 111, 110, 115]

/-- The bucket name SiafundOutputs. -/
def SiafundOutputs : Bytes := [83, 105, 97, 102, 117, 110, 100, 79, 117, 116, 112, 117, 116, 115]

/-- The bucket and key name SiafundPool. -/
def SiafundPool : Bytes := [83, 105, 97, 102, 117, 110, 100, 80, 111, 111, 108]

/-- The five ASCII bytes of the delayed-siacoin-output bucket name marker
(the Go source spells this marker dsco followed by an underscore). -/
def pre_dsco : Bytes := [100, 115, 99, 111, 95]

/-- The five ASCII bytes of the file-contract-expiration bucket name marker
(the Go source spells this marker fcex followed by an underscore). -/
def pre_fcex : Bytes := [102, 99, 101, 120, 95]

/-! ### Association-list primitives for buckets and the bucket catalogue -/

/-- Lookup of a key in a bucket, as bolt Bucket.Get: `none` models the nil
return for a missing key. -/
def bucketGet : Bucket → Bytes → Option Bytes
  | [], _ => none
  | e :: rest, k => if e.1 = k then some e.2 else bucketGet rest k

/-- Removal of every entry with the given key, as bolt Bucket.Delete
(which is a no-op when the key is absent). -/
def bucketDelete : Bucket → Bytes → Bucket
  | [], _ => []
  | e :: rest, k => if e.1 = k then bucketDelete rest k else e :: bucketDelete rest k

/-- Insert-or-replace of a key, as bolt Bucket.Put.  Bolt keys are unique
within a bucket, so the model normalises by dropping any previous entry. -/
def bucketPut (b : Bucket) (k v : Bytes) : Bucket :=
  (k, v) :: bucketDelete b k

/-- Lookup of a bucket by name, as bolt Tx.Bucket: `none` models the nil
return for a missing bucket. -/
def dbGetBucket : DB → Bytes → Option Bucket
  | [], _ => none
  | e :: rest, n => if e.1 = n then some e.2 else dbGetBucket rest n

/-- Removal of a bucket by name. -/
def dbDeleteBucket : DB → Bytes → DB
  | [], _ => []
  | e :: rest, n => if e.1 = n then dbDeleteBucket rest n else e :: dbDeleteBucket rest n

/-- Replacement of the contents of a named bucket.  Bolt bucket names are
unique, so the model normalises by dropping any previous bucket. -/
def dbSetBucket (db : DB) (n : Bytes) (b : Bucket) : DB :=
  (n, b) :: dbDeleteBucket db n

/-- Creation of a bucket when absent, as bolt Tx.CreateBucketIfNotExists
(an existing bucket is left untouched). -/
def createBucketIfNotExistsDB (db : DB) (n : Bytes) : DB :=
  if (dbGetBucket db n).isSome then db else db ++ [(n, [])]

/-! ### The deterministic binary encoding

Modelled from the spec: the encoding package of this repository is not
under src/; the spec treats it as a fixed, deterministic, reversible
binary encoding with fixed-width multi-byte integers (little-endian
8-byte words, as written by EncUint64) and length-prefixed
variable-width fields.  The definitions below realise exactly that. -/

/-- Modelled from the spec: encoding.EncUint64 writes a 64-bit integer as
eight little-endian bytes, byte i holding the ith 8-bit word. -/
def encUint64 (n : Nat) : Bytes :=
  [n % 256,
   n / 256 % 256,
   n / 65536 % 256,
   n / 16777216 % 256,
   n / 4294967296 % 256,
   n / 1099511627776 % 256,
   n / 281474976710656 % 256,
   n / 72057594037927936 % 256]

/-- Little-endian byte strings of a fixed width, written digit by digit. -/
def toBytesLE : Nat → Nat → Bytes
  | 0, _ => []
  | k + 1, n => n % 256 :: toBytesLE k (n / 256)

/-- Modelled from the spec: encoding.Marshal of a BlockHeight (a uint64)
produces its fixed-width little-endian byte string. -/
def marshalBlockHeight (h : Nat) : Bytes := toBytesLE 8 h

/-- Value of a little-endian byte string. -/
def fromLEBytes : Bytes → Nat
  | [] => 0
  | b :: rest => b + 256 * fromLEBytes rest

/-- Minimal little-endian byte string of a natural number, written with
an explicit fuel argument so the recursion is structural (the fuel never
runs out when it starts at the value itself). -/
def toBytesLEminAux : Nat → Nat → Bytes
  | 0, _ => []
  | fuel + 1, n => if n = 0 then [] else n % 256 :: toBytesLEminAux fuel (n / 256)

/-- Minimal little-endian byte string of a natural number. -/
def toBytesLEmin (n : Nat) : Bytes := toBytesLEminAux n n

/-- Modelled from the spec: the big-endian byte string of an
arbitrary-precision currency value (the minimal big.Int representation). -/
def toBEBytes (n : Nat) : Bytes := (toBytesLEmin n).reverse

/-- Value of a big-endian byte string. -/
def fromBEBytes (b : Bytes) : Nat := fromLEBytes b.reverse

/-- Modelled from the spec: encoding.Marshal of a Currency is the 8-byte
little-endian length prefix followed by the minimal big-endian bytes of
the value. -/
def marshalCurrency (v : Nat) : Bytes :=
  marshalBlockHeight (toBEBytes v).length ++ toBEBytes v

/-- Modelled from the spec: the exact inverse of marshalCurrency, failing
on any byte string that does not decode to a whole currency value. -/
def unmarshalCurrency (b : Bytes) : Except String Nat :=
  if b.length < 8 then Except.error "unmarshal currency"
  else
    if (b.drop 8).length = fromLEBytes (b.take 8) then
      Except.ok (fromBEBytes (b.drop 8))
    else Except.error "unmarshal currency"

/-- A siacoin output: an arbitrary-precision value and a 32-byte spend
authorization (unlock) hash. -/
structure SiacoinOutput where
  value : Nat
  unlockHash : Bytes
  deriving DecidableEq

/-- Modelled from the spec: encoding.Marshal of a SiacoinOutput is the
encoded currency value followed by the raw 32 unlock-hash bytes. -/
def marshalSiacoinOutput (sco : SiacoinOutput) : Bytes :=
  marshalCurrency sco.value ++ sco.unlockHash

/-- Modelled from the spec: the exact inverse of marshalSiacoinOutput. -/
def unmarshalSiacoinOutput (b : Bytes) : Except String SiacoinOutput :=
  if b.length < 8 then Except.error "unmarshal siacoin output"
  else
    if fromLEBytes (b.take 8) + 32 = (b.drop 8).length then
      Except.ok
        { value := fromBEBytes ((b.drop 8).take (fromLEBytes (b.take 8))),
          unlockHash := (b.drop 8).drop (fromLEBytes (b.take 8)) }
    else Except.error "unmarshal siacoin output"

/-- A file contract as stored in the FileContracts bucket.  The fields
after the two window heights (payout, proof outputs, unlock hash,
revision number) are opaque trailing bytes: no database helper reads
into them. -/
structure FileContract where
  fileSize : Nat
  fileMerkleRoot : Bytes
  windowStart : Nat
  windowEnd : Nat
  tail : Bytes
  deriving DecidableEq

/-- Modelled from the spec: encoding.Marshal of a FileContract lays out
the file size (8 bytes), the 32-byte Merkle root, the window start
(8 bytes) and the window end (8 bytes) followed by the remaining fields,
so that with a 32-byte Merkle root the window end occupies bytes 48-56
of the encoding, exactly as the removeFileContract comment states. -/
def marshalFileContract (fc : FileContract) : Bytes :=
  encUint64 fc.fileSize ++ fc.fileMerkleRoot ++
    encUint64 fc.windowStart ++ encUint64 fc.windowEnd ++ fc.tail

/-- The byte range fcBytes[48:56] that removeFileContract slices out of a
stored encoded contract to recover its window end. -/
def windowEndBytes (b : Bytes) : Bytes := (b.drop 48).take 8

/-! ### The database helpers of database.go -/

/-- blockHeight returns the height of the blockchain.  The stored counter
is decoded into a signed machine integer; a decode failure panics under
build.DEBUG and a negative decoded value panics unconditionally
(panic(height)), so a stored word with the top bit set is fatal. -/
def blockHeight (db : DB) : Except String Nat :=
  match dbGetBucket db BlockHeight with
  | none => Except.error "nil bucket"
  | some bh =>
    match bucketGet bh BlockHeight with
    | none => Except.error "unmarshal height"
    | some bytes =>
      if bytes.length = 8 then
        if 2 ^ 63 ≤ fromLEBytes bytes then Except.error "negative height"
        else Except.ok (fromLEBytes bytes)
      else Except.error "unmarshal height"

/-- getPath returns the block id at the given height in the block path,
panicking (under build.DEBUG) when the entry is missing or malformed. -/
def getPath (db : DB) (h : Nat) : Except String Bytes :=
  match dbGetBucket db BlockPath with
  | none => Except.error "nil bucket"
  | some bp =>
    match bucketGet bp (marshalBlockHeight h) with
    | none => Except.error "unmarshal id"
    | some idBytes =>
      if idBytes.length = 32 then Except.ok idBytes else Except.error "unmarshal id"

/-- A processed block, reduced to what the block map stores: the 32-byte
block id the record is keyed by, and the encoded record itself, which
database.go never decodes on the write path (modelled from the spec:
processedBlock lives outside src/ and its encoding is opaque here). -/
structure ProcessedBlock where
  blockID : Bytes
  body : Bytes
  deriving DecidableEq

/-- addBlockMap adds a processed block to the block map.  Note that the
source performs no duplicate check whatsoever: it is a bare Put, so an
existing record under the same id is silently overwritten. -/
def addBlockMap (db : DB) (pb : ProcessedBlock) : Except String DB :=
  match dbGetBucket db BlockMap with
  | none => Except.error "nil bucket"
  | some bm => Except.ok (dbSetBucket db BlockMap (bucketPut bm pb.blockID pb.body))

/-- pushPath adds a block to the BlockPath at current height + 1: it
increments the stored height counter (with uint64 wraparound) and writes
the id under the marshalled new height. -/
def pushPath (db : DB) (bid : Bytes) : Except String DB :=
  match dbGetBucket db BlockHeight with
  | none => Except.error "nil bucket"
  | some bh =>
    match bucketGet bh BlockHeight with
    | none => Except.error "unmarshal height"
    | some heightBytes =>
      if heightBytes.length = 8 then
        let newHeightBytes := marshalBlockHeight ((fromLEBytes heightBytes + 1) % 2 ^ 64)
        let db1 := dbSetBucket db BlockHeight (bucketPut bh BlockHeight newHeightBytes)
        match dbGetBucket db1 BlockPath with
        | none => Except.error "nil bucket"
        | some bp => Except.ok (dbSetBucket db1 BlockPath (bucketPut bp newHeightBytes bid))
      else Except.error "unmarshal height"

/-- popPath removes the block with the largest height from the path: it
decrements the stored height counter (with uint64 wraparound) and
deletes the path entry under the raw bytes it read for the old height. -/
def popPath (db : DB) : Except String DB :=
  match dbGetBucket db BlockHeight with
  | none => Except.error "nil bucket"
  | some bh =>
    match bucketGet bh BlockHeight with
    | none => Except.error "unmarshal height"
    | some oldHeightBytes =>
      if oldHeightBytes.length = 8 then
        let newHeightBytes :=
          marshalBlockHeight ((fromLEBytes oldHeightBytes + (2 ^ 64 - 1)) % 2 ^ 64)
        let db1 := dbSetBucket db BlockHeight (bucketPut bh BlockHeight newHeightBytes)
        match dbGetBucket db1 BlockPath with
        | none => Except.error "nil bucket"
        | some bp => Except.ok (dbSetBucket db1 BlockPath (bucketDelete bp oldHeightBytes))
      else Except.error "unmarshal height"

/-- isSiacoinOutput returns true when a siacoin output with that id is in
the database (a pure existence check that never panics on a present or
absent key; a missing bucket would still be a nil dereference). -/
def isSiacoinOutput (db : DB) (id : Bytes) : Except String Bool :=
  match dbGetBucket db SiacoinOutputs with
  | none => Except.error "nil bucket"
  | some b => Except.ok (bucketGet b id).isSome

/-- getSiacoinOutput fetches a siacoin output, returning an ordinary
(recoverable) error when the output does not exist or fails to decode. -/
def getSiacoinOutput (db : DB) (id : Bytes) : Except String SiacoinOutput :=
  match dbGetBucket db SiacoinOutputs with
  | none => Except.error "nil bucket"
  | some b =>
    match bucketGet b id with
    | none => Except.error "requested item does not exist"
    | some bytes => unmarshalSiacoinOutput bytes

/-- addSiacoinOutput adds a siacoin output, panicking (under build.DEBUG)
when an output with the same id is already present. -/
def addSiacoinOutput (db : DB) (id : Bytes) (sco : SiacoinOutput) : Except String DB :=
  match dbGetBucket db SiacoinOutputs with
  | none => Except.error "nil bucket"
  | some b =>
    if (bucketGet b id).isSome then Except.error "repeat siacoin output"
    else Except.ok (dbSetBucket db SiacoinOutputs (bucketPut b id (marshalSiacoinOutput sco)))

/-- removeSiacoinOutput removes a siacoin output, panicking (under
build.DEBUG) when no output with that id is present. -/
def removeSiacoinOutput (db : DB) (id : Bytes) : Except String DB :=
  match dbGetBucket db SiacoinOutputs with
  | none => Except.error "nil bucket"
  | some b =>
    if (bucketGet b id).isNone then Except.error "nil siacoin output"
    else Except.ok (dbSetBucket db SiacoinOutputs (bucketDelete b id))

/-- addFileContract adds a file contract (panicking under build.DEBUG on a
repeat id) and also inserts an empty-valued marker for the contract into
the expiration bucket named by the marshalled window end, creating that
bucket on demand. -/
def addFileContract (db : DB) (id : Bytes) (fc : FileContract) : Except String DB :=
  match dbGetBucket db FileContracts with
  | none => Except.error "nil bucket"
  | some fcBucket =>
    if (bucketGet fcBucket id).isSome then Except.error "repeat file contract"
    else
      let db1 := dbSetBucket db FileContracts (bucketPut fcBucket id (marshalFileContract fc))
      let expirationBucketID := pre_fcex ++ marshalBlockHeight fc.windowEnd
      let db2 := createBucketIfNotExistsDB db1 expirationBucketID
      let expirationBucket := (dbGetBucket db2 expirationBucketID).getD []
      Except.ok (dbSetBucket db2 expirationBucketID (bucketPut expirationBucket id []))

/-- removeFileContract removes a file contract (panicking under
build.DEBUG when absent), then derives the expiration bucket name from
bytes 48-56 of the stored encoded record and deletes the matching
marker, panicking unconditionally (panic errNilItem) when the marker is
missing; slicing a record shorter than 56 bytes is a Go runtime panic. -/
def removeFileContract (db : DB) (id : Bytes) : Except String DB :=
  match dbGetBucket db FileContracts with
  | none => Except.error "nil bucket"
  | some fcBucket =>
    match bucketGet fcBucket id with
    | none => Except.error "nil file contract"
    | some fcBytes =>
      let db1 := dbSetBucket db FileContracts (bucketDelete fcBucket id)
      if fcBytes.length < 56 then Except.error "slice out of range"
      else
        let expirationBucketID := pre_fcex ++ windowEndBytes fcBytes
        match dbGetBucket db1 expirationBucketID with
        | none => Except.error "nil bucket"
        | some expirationBucket =>
          if (bucketGet expirationBucket id).isNone then
            Except.error "requested item does not exist"
          else Except.ok (dbSetBucket db1 expirationBucketID (bucketDelete expirationBucket id))

/-- addSiafundOutput adds a siafund output (its encoded record treated as
opaque bytes), panicking under build.DEBUG on a repeat id. -/
def addSiafundOutput (db : DB) (id : Bytes) (sfo : Bytes) : Except String DB :=
  match dbGetBucket db SiafundOutputs with
  | none => Except.error "nil bucket"
  | some b =>
    if (bucketGet b id).isSome then Except.error "repeat siafund output"
    else Except.ok (dbSetBucket db SiafundOutputs (bucketPut b id sfo))

/-- getSiafundPool reads the scalar siafund pool, panicking (under
build.DEBUG) when the stored value is unavailable or malformed. -/
def getSiafundPool (db : DB) : Except String Nat :=
  match dbGetBucket db SiafundPool with
  | none => Except.error "nil bucket"
  | some b =>
    match bucketGet b SiafundPool with
    | none => Except.error "unmarshal currency"
    | some bytes => unmarshalCurrency bytes

/-- setSiafundPool unconditionally overwrites the saved siafund pool. -/
def setSiafundPool (db : DB) (c : Nat) : Except String DB :=
  match dbGetBucket db SiafundPool with
  | none => Except.error "nil bucket"
  | some b => Except.ok (dbSetBucket db SiafundPool (bucketPut b SiafundPool (marshalCurrency c)))

/-- The delayed-siacoin-output bucket name as computed by addDSCO: the
dsco marker followed by encoding.EncUint64 of the height. -/
def dscoAddName (bh : Nat) : Bytes := pre_dsco ++ encUint64 bh

/-- The delayed-siacoin-output bucket name as computed by removeDSCO,
createDSCOBucket, deleteDSCOBucket and forEachDSCO: the dsco marker
followed by encoding.Marshal of the height. -/
def dscoName (bh : Nat) : Bytes := pre_dsco ++ marshalBlockHeight bh

/-- addDSCO adds a delayed siacoin output: panics (under build.DEBUG) when
the id is already a live unspent output or already present in the
delayed bucket of that height; a missing delayed bucket is a nil dereference. -/
def addDSCO (db : DB) (bh : Nat) (id : Bytes) (sco : SiacoinOutput) : Except String DB :=
  match dbGetBucket db SiacoinOutputs with
  | none => Except.error "nil bucket"
  | some scoBucket =>
    if (bucketGet scoBucket id).isSome then Except.error "dsco already in output set"
    else
      match dbGetBucket db (dscoAddName bh) with
      | none => Except.error "nil bucket"
      | some dscoBucket =>
        if (bucketGet dscoBucket id).isSome then
          Except.error "attempting to add an already existing item to the consensus set"
        else
          Except.ok (dbSetBucket db (dscoAddName bh) (bucketPut dscoBucket id (marshalSiacoinOutput sco)))

/-- removeDSCO removes a delayed siacoin output.  When the id is absent
the debug build prints a NIL DSCO diagnostic and continues (the panic is
commented out in the source); the returned flag records whether that
diagnostic was printed.  The Delete itself tolerates an absent key. -/
def removeDSCO (db : DB) (bh : Nat) (id : Bytes) : Except String (DB × Bool) :=
  match dbGetBucket db (dscoName bh) with
  | none => Except.error "nil bucket"
  | some dscoBucket =>
    Except.ok (dbSetBucket db (dscoName bh) (bucketDelete dscoBucket id),
               (bucketGet dscoBucket id).isNone)

/-- createDSCOBucket creates the delayed-output bucket for a height,
panicking (under build.DEBUG) when the bucket already exists. -/
def createDSCOBucket (db : DB) (bh : Nat) : Except String DB :=
  if (dbGetBucket db (dscoName bh)).isSome then Except.error "bucket already exists"
  else Except.ok (db ++ [(dscoName bh, [])])

/-- deleteDSCOBucket deletes the bucket that held a set of delayed siacoin
outputs, panicking (under build.DEBUG) when the bucket does not exist.
The source contains only a TODO in place of a check that the bucket is
empty, so a non-empty bucket is deleted without complaint. -/
def deleteDSCOBucket (db : DB) (h : Nat) : Except String DB :=
  match dbGetBucket db (dscoName h) with
  | none => Except.error "using a bucket that does not exist"
  | some _ => Except.ok (dbDeleteBucket db (dscoName h))

/-- forEachDSCO decodes every (id, output) pair in the delayed bucket for
a height, in bucket order, propagating decode failures. -/
def forEachDSCO (db : DB) (bh : Nat) : Except String (List (Bytes × SiacoinOutput)) :=
  match dbGetBucket db (dscoName bh) with
  | none => Except.error "nil bucket"
  | some b =>
    b.foldr
      (fun e acc =>
        match acc with
        | Except.error m => Except.error m
        | Except.ok rest =>
          if e.1.length = 32 then
            match unmarshalSiacoinOutput e.2 with
            | Except.error m => Except.error m
            | Except.ok v => Except.ok ((e.1, v) :: rest)
          else Except.error "unmarshal id")
      (Except.ok [])

/-! ### The initializer -/

/-- Modelled from the spec: the exact numeric coinbase schedule is out of
scope (an opaque function supplying a value); only its value at height 0
is ever compared against. -/
def calculateCoinbase (h : Nat) : Nat := 300000 - min h 270000

/-- The in-memory genesis data that initDB consumes: the genesis block id,
the encoded processed genesis block before and after the debug checksum
is filled in, the id of the height-0 miner payout, and the genesis
siafund-output diffs as (id, encoded record) pairs (modelled from the
spec: the processed block and diff types live outside src/). -/
structure BlockRoot where
  blockID : Bytes
  body1 : Bytes
  body2 : Bytes
  payoutID : Bytes
  sfDiffs : List (Bytes × Bytes)

/-- The catalogue of buckets created by initDB, in source order. -/
def csBuckets : List Bytes :=
  [BlockPath, BlockMap, SiacoinOutputs, FileContracts,
   FileContractExpirations, SiafundOutputs, SiafundPool, BlockHeight]

/-- Creation of every consensus bucket, as the loop at the top of initDB. -/
def initBuckets (db : DB) : DB := csBuckets.foldl createBucketIfNotExistsDB db

/-- The counter value written before the genesis push: BlockHeight(0) - 1
with uint64 underflow. -/
def genesisHeightInit : Nat := (0 + 2 ^ 64 - 1) % 2 ^ 64

/-- The write of the underflowed genesis counter into the BlockHeight
bucket, as the first store initDB performs after creating the buckets. -/
def initHeightStage (db : DB) : Except String DB :=
  match dbGetBucket db BlockHeight with
  | none => Except.error "nil bucket"
  | some bh =>
    Except.ok (dbSetBucket db BlockHeight
      (bucketPut bh BlockHeight (marshalBlockHeight genesisHeightInit)))

/-- Sequencing of fallible database steps (a panic anywhere aborts the
whole transaction). -/
def dbSeq (x : Except String DB) (f : DB → Except String DB) : Except String DB :=
  match x with
  | Except.error e => Except.error e
  | Except.ok db => f db

/-- Modelled from the spec: commitSiafundOutputDiff (diffs.go, not under
src/) in the apply direction routes each genesis siafund-output diff
through the normal addSiafundOutput path. -/
def applySiafundDiffs (db : DB) : List (Bytes × Bytes) → Except String DB
  | [] => Except.ok db
  | d :: rest => dbSeq (addSiafundOutput db d.1 d.2) (fun db1 => applySiafundDiffs db1 rest)

/-- initDB bootstraps an uninitialized database: it creates every bucket,
stores the underflowed height counter, adds the genesis block to the
block map, pushes its id onto the path (bringing the height to 0), zeroes
the siafund pool, applies the genesis siafund-output diffs, inserts the
unspendable genesis miner payout (blank unlock hash, height-0 coinbase
value) and finally re-adds the genesis block record after the debug
checksum is computed. -/
def initDB (cs : BlockRoot) (db : DB) : Except String DB :=
  dbSeq (initHeightStage (initBuckets db)) (fun db1 =>
  dbSeq (addBlockMap db1 { blockID := cs.blockID, body := cs.body1 }) (fun db2 =>
  dbSeq (pushPath db2 cs.blockID) (fun db3 =>
  dbSeq (setSiafundPool db3 0) (fun db4 =>
  dbSeq (applySiafundDiffs db4 cs.sfDiffs) (fun db5 =>
  dbSeq (addSiacoinOutput db5 cs.payoutID
          { value := calculateCoinbase 0, unlockHash := List.replicate 32 0 }) (fun db6 =>
  addBlockMap db6 { blockID := cs.blockID, body := cs.body2 }))))))

/-! ### The contract-expiration consistency invariant -/

/-- The primary FileContracts bucket of a database (empty when the bucket
is missing). -/
def fcPrimary (db : DB) : Bucket := (dbGetBucket db FileContracts).getD []

/-- Lookup of an expiration-index marker: the stored value for a contract
id inside the expiration bucket named by the given window-end bytes. -/
def markerLookup (db : DB) (web : Bytes) (id : Bytes) : Option Bytes :=
  match dbGetBucket db (pre_fcex ++ web) with
  | none => none
  | some b => bucketGet b id

/-- Consistency of the contract-expiration index with the primary
contract bucket: every stored contract is at least 56 bytes long and
owns an empty-valued marker in the expiration bucket named by its bytes
48-56, and every entry of every expiration bucket points back to a
stored contract whose bytes 48-56 name exactly that bucket. -/
def fcInv (db : DB) : Prop :=
  (∀ e ∈ fcPrimary db,
      56 ≤ e.2.length ∧ markerLookup db (windowEndBytes e.2) e.1 = some []) ∧
  (∀ bk ∈ db, List.take 5 bk.1 = pre_fcex →
      ∀ e ∈ bk.2,
        Option.map (fun v => pre_fcex ++ windowEndBytes v) (bucketGet (fcPrimary db) e.1)
          = some bk.1)

/-- The raw bytes stored under the BlockHeight key of the BlockHeight
bucket (the chain height counter as persisted). -/
def pathHeightBytes (db : DB) : Option Bytes :=
  (dbGetBucket db BlockHeight).bind (fun b => bucketGet b BlockHeight)

/-- The raw path entry stored under a marshalled height in BlockPath. -/
def pathEntry (db : DB) (k : Nat) : Option Bytes :=
  (dbGetBucket db BlockPath).bind (fun b => bucketGet b (marshalBlockHeight k))

/-! ### Arithmetic and encoding lemmas -/

theorem toBytesLE_length (k n : Nat) : (toBytesLE k n).length = k := by
  induction k generalizing n with
  | zero => rfl
  | succ k ih => simp [toBytesLE, ih]

theorem fromLEBytes_toBytesLE (k n : Nat) : fromLEBytes (toBytesLE k n) = n % 256 ^ k := by
  induction k generalizing n with
  | zero => simp [toBytesLE, fromLEBytes, Nat.mod_one]
  | succ k ih =>
    rw [toBytesLE, fromLEBytes, ih, pow_succ', Nat.mod_mul]

theorem encUint64_eq_toBytesLE (n : Nat) : encUint64 n = toBytesLE 8 n := by
  norm_num [encUint64, toBytesLE, Nat.div_div_eq_div_mul]

theorem marshalBlockHeight_length (h : Nat) : (marshalBlockHeight h).length = 8 :=
  toBytesLE_length 8 h

theorem fromLEBytes_marshalBlockHeight (h : Nat) (hh : h < 2 ^ 64) :
    fromLEBytes (marshalBlockHeight h) = h := by
  rw [marshalBlockHeight, fromLEBytes_toBytesLE]
  exact Nat.mod_eq_of_lt (by norm_num at hh ⊢; exact hh)

theorem marshalBlockHeight_inj {a b : Nat} (ha : a < 2 ^ 64) (hb : b < 2 ^ 64)
    (h : marshalBlockHeight a = marshalBlockHeight b) : a = b := by
  have := congrArg fromLEBytes h
  rwa [fromLEBytes_marshalBlockHeight a ha, fromLEBytes_marshalBlockHeight b hb] at this

theorem fromLEBytes_toBytesLEminAux (f : Nat) : ∀ n ≤ f,
    fromLEBytes (toBytesLEminAux f n) = n := by
  induction f with
  | zero =>
    intro n hn
    simp [Nat.le_zero.mp hn, toBytesLEminAux, fromLEBytes]
  | succ f ih =>
    intro n hn
    rw [toBytesLEminAux]
    by_cases h : n = 0
    · simp [h, fromLEBytes]
    · rw [if_neg h, fromLEBytes, ih (n / 256)
        (by
          have := Nat.div_lt_self (Nat.pos_of_ne_zero h) (show 1 < 256 by norm_num)
          omega)]
      exact Nat.mod_add_div n 256

theorem fromLEBytes_toBytesLEmin (n : Nat) : fromLEBytes (toBytesLEmin n) = n :=
  fromLEBytes_toBytesLEminAux n n le_rfl

theorem fromBEBytes_toBEBytes (n : Nat) : fromBEBytes (toBEBytes n) = n := by
  rw [fromBEBytes, toBEBytes, List.reverse_reverse, fromLEBytes_toBytesLEmin]

theorem unmarshalCurrency_marshalCurrency (v : Nat)
    (hlen : (toBEBytes v).length < 2 ^ 64) :
    unmarshalCurrency (marshalCurrency v) = Except.ok v := by
  have h8 : (marshalBlockHeight (toBEBytes v).length).length = 8 := marshalBlockHeight_length _
  have htake : (marshalCurrency v).take 8 = marshalBlockHeight (toBEBytes v).length := by
    rw [marshalCurrency, ← h8, List.take_left]
  have hdrop : (marshalCurrency v).drop 8 = toBEBytes v := by
    rw [marshalCurrency, ← h8, List.drop_left]
  rw [unmarshalCurrency, htake, hdrop]
  rw [fromLEBytes_marshalBlockHeight _ hlen]
  have hlong : ¬ (marshalCurrency v).length < 8 := by
    rw [marshalCurrency, List.length_append, h8]
    omega
  simp [hlong, fromBEBytes_toBEBytes]

theorem unmarshalSiacoinOutput_marshal (sco : SiacoinOutput)
    (h32 : sco.unlockHash.length = 32)
    (hlen : (toBEBytes sco.value).length < 2 ^ 64) :
    unmarshalSiacoinOutput (marshalSiacoinOutput sco) = Except.ok sco := by
  have h8 : (marshalBlockHeight (toBEBytes sco.value).length).length = 8 :=
    marshalBlockHeight_length _
  have hassoc : marshalSiacoinOutput sco =
      marshalBlockHeight (toBEBytes sco.value).length ++ (toBEBytes sco.value ++ sco.unlockHash) := by
    rw [marshalSiacoinOutput, marshalCurrency, List.append_assoc]
  have htake : (marshalSiacoinOutput sco).take 8 =
      marshalBlockHeight (toBEBytes sco.value).length := by
    rw [hassoc, ← h8, List.take_left]
  have hdrop : (marshalSiacoinOutput sco).drop 8 = toBEBytes sco.value ++ sco.unlockHash := by
    rw [hassoc, ← h8, List.drop_left]
  have hlong : ¬ (marshalSiacoinOutput sco).length < 8 := by
    rw [hassoc, List.length_append, h8]
    omega
  rw [unmarshalSiacoinOutput]
  rw [if_neg hlong, htake, hdrop, fromLEBytes_marshalBlockHeight _ hlen]
  have hok : (toBEBytes sco.value).length + 32 =
      (toBEBytes sco.value ++ sco.unlockHash).length := by
    rw [List.length_append, h32]
  rw [if_pos hok, List.take_left, List.drop_left, fromBEBytes_toBEBytes]

/-! ### Bucket and bucket-catalogue lemmas -/

theorem bucketGet_delete (b : Bucket) (k k' : Bytes) :
    bucketGet (bucketDelete b k) k' = if k' = k then none else bucketGet b k' := by
  induction b with
  | nil => simp [bucketDelete, bucketGet]
  | cons e rest ih =>
    by_cases hk : k' = k
    · subst hk
      by_cases he : e.1 = k'
      · simp [bucketDelete, bucketGet, he, ih]
      · simp [bucketDelete, bucketGet, he, ih]
    · by_cases he : e.1 = k
      · simp [bucketDelete, bucketGet, he, hk, ih, Ne.symm hk]
      · simp [bucketDelete, bucketGet, he, hk, ih]

theorem bucketGet_put_self (b : Bucket) (k v : Bytes) :
    bucketGet (bucketPut b k v) k = some v := by
  rw [bucketPut, bucketGet, if_pos rfl]

theorem bucketGet_put_ne (b : Bucket) (k v k' : Bytes) (h : k' ≠ k) :
    bucketGet (bucketPut b k v) k' = bucketGet b k' := by
  rw [bucketPut, bucketGet, if_neg (fun he => h he.symm), bucketGet_delete, if_neg h]

theorem mem_bucketDelete {b : Bucket} {k : Bytes} {e : Bytes × Bytes} :
    e ∈ bucketDelete b k ↔ e ∈ b ∧ e.1 ≠ k := by
  induction b with
  | nil => simp [bucketDelete]
  | cons e' rest ih =>
    by_cases he : e'.1 = k
    · rw [bucketDelete, if_pos he, ih]
      constructor
      · exact fun ⟨h1, h2⟩ => ⟨List.mem_cons_of_mem _ h1, h2⟩
      · rintro ⟨h1, h2⟩
        rcases List.mem_cons.mp h1 with h | h
        · exact absurd (h ▸ he) h2
        · exact ⟨h, h2⟩
    · rw [bucketDelete, if_neg he]
      constructor
      · intro h
        rcases List.mem_cons.mp h with h | h
        · exact ⟨h ▸ List.mem_cons_self _ _, h ▸ he⟩
        · exact ⟨List.mem_cons_of_mem _ (ih.mp h).1, (ih.mp h).2⟩
      · rintro ⟨h1, h2⟩
        rcases List.mem_cons.mp h1 with h | h
        · exact h ▸ List.mem_cons_self _ _
        · exact List.mem_cons_of_mem _ (ih.mpr ⟨h, h2⟩)

theorem mem_bucketPut {b : Bucket} {k v : Bytes} {e : Bytes × Bytes} :
    e ∈ bucketPut b k v ↔ e = (k, v) ∨ (e ∈ b ∧ e.1 ≠ k) := by
  rw [bucketPut, List.mem_cons, mem_bucketDelete]

theorem bucketGet_mem {b : Bucket} {k v : Bytes} (h : bucketGet b k = some v) :
    (k, v) ∈ b := by
  induction b with
  | nil => simp [bucketGet] at h
  | cons e rest ih =>
    rw [bucketGet] at h
    by_cases he : e.1 = k
    · rw [if_pos he] at h
      injection h with h2
      subst h2
      subst he
      exact List.mem_cons_self _ _
    · rw [if_neg he] at h
      exact List.mem_cons_of_mem _ (ih h)

theorem dbGetBucket_delete (db : DB) (n m : Bytes) :
    dbGetBucket (dbDeleteBucket db n) m = if m = n then none else dbGetBucket db m := by
  induction db with
  | nil => simp [dbDeleteBucket, dbGetBucket]
  | cons e rest ih =>
    by_cases hm : m = n
    · subst hm
      by_cases he : e.1 = m
      · simp [dbDeleteBucket, dbGetBucket, he, ih]
      · simp [dbDeleteBucket, dbGetBucket, he, ih]
    · by_cases he : e.1 = n
      · simp [dbDeleteBucket, dbGetBucket, he, hm, ih, Ne.symm hm]
      · simp [dbDeleteBucket, dbGetBucket, he, hm, ih]

theorem dbGetBucket_set_self (db : DB) (n : Bytes) (b : Bucket) :
    dbGetBucket (dbSetBucket db n b) n = some b := by
  rw [dbSetBucket, dbGetBucket, if_pos rfl]

theorem dbGetBucket_set_ne (db : DB) (n : Bytes) (b : Bucket) (m : Bytes) (h : m ≠ n) :
    dbGetBucket (dbSetBucket db n b) m = dbGetBucket db m := by
  rw [dbSetBucket, dbGetBucket, if_neg (fun he => h he.symm), dbGetBucket_delete, if_neg h]

theorem mem_dbDeleteBucket {db : DB} {n : Bytes} {e : Bytes × Bucket} :
    e ∈ dbDeleteBucket db n ↔ e ∈ db ∧ e.1 ≠ n := by
  induction db with
  | nil => simp [dbDeleteBucket]
  | cons e' rest ih =>
    by_cases he : e'.1 = n
    · rw [dbDeleteBucket, if_pos he, ih]
      constructor
      · exact fun ⟨h1, h2⟩ => ⟨List.mem_cons_of_mem _ h1, h2⟩
      · rintro ⟨h1, h2⟩
        rcases List.mem_cons.mp h1 with h | h
        · exact absurd (h ▸ he) h2
        · exact ⟨h, h2⟩
    · rw [dbDeleteBucket, if_neg he]
      constructor
      · intro h
        rcases List.mem_cons.mp h with h | h
        · exact ⟨h ▸ List.mem_cons_self _ _, h ▸ he⟩
        · exact ⟨List.mem_cons_of_mem _ (ih.mp h).1, (ih.mp h).2⟩
      · rintro ⟨h1, h2⟩
        rcases List.mem_cons.mp h1 with h | h
        · exact h ▸ List.mem_cons_self _ _
        · exact List.mem_cons_of_mem _ (ih.mpr ⟨h, h2⟩)

theorem mem_dbSetBucket {db : DB} {n : Bytes} {b : Bucket} {e : Bytes × Bucket} :
    e ∈ dbSetBucket db n b ↔ e = (n, b) ∨ (e ∈ db ∧ e.1 ≠ n) := by
  rw [dbSetBucket, List.mem_cons, mem_dbDeleteBucket]

theorem dbGetBucket_mem {db : DB} {n : Bytes} {b : Bucket} (h : dbGetBucket db n = some b) :
    (n, b) ∈ db := by
  induction db with
  | nil => simp [dbGetBucket] at h
  | cons e rest ih =>
    rw [dbGetBucket] at h
    by_cases he : e.1 = n
    · rw [if_pos he] at h
      injection h with h2
      subst h2
      subst he
      exact List.mem_cons_self _ _
    · rw [if_neg he] at h
      exact List.mem_cons_of_mem _ (ih h)

theorem dbGetBucket_append (db : DB) (n : Bytes) (b : Bucket) (m : Bytes) :
    dbGetBucket (db ++ [(n, b)]) m =
      match dbGetBucket db m with
      | some b' => some b'
      | none => if n = m then some b else none := by
  induction db with
  | nil => simp [dbGetBucket]
  | cons e rest ih =>
    rw [List.cons_append, dbGetBucket, dbGetBucket]
    by_cases he : e.1 = m
    · rw [if_pos he, if_pos he]
    · rw [if_neg he, if_neg he, ih]

theorem dbGetBucket_createIfNot_ne (db : DB) (n m : Bytes) (h : m ≠ n) :
    dbGetBucket (createBucketIfNotExistsDB db n) m = dbGetBucket db m := by
  rw [createBucketIfNotExistsDB]
  by_cases hs : (dbGetBucket db n).isSome
  · rw [if_pos hs]
  · rw [if_neg hs, dbGetBucket_append]
    cases hd : dbGetBucket db m with
    | some b' => rfl
    | none => exact if_neg (show ¬ n = m from fun he => h he.symm)

theorem dbGetBucket_createIfNot_self (db : DB) (n : Bytes) :
    dbGetBucket (createBucketIfNotExistsDB db n) n = some ((dbGetBucket db n).getD []) := by
  rw [createBucketIfNotExistsDB]
  cases hd : dbGetBucket db n with
  | some b => simp [hd]
  | none => simp [hd, dbGetBucket_append]

theorem mem_createBucketIfNotExistsDB {db : DB} {n : Bytes} {e : Bytes × Bucket}
    (h : e ∈ createBucketIfNotExistsDB db n) : e ∈ db ∨ e = (n, []) := by
  rw [createBucketIfNotExistsDB] at h
  by_cases hs : (dbGetBucket db n).isSome
  · rw [if_pos hs] at h
    exact Or.inl h
  · rw [if_neg hs] at h
    rcases List.mem_append.mp h with h | h
    · exact Or.inl h
    · exact Or.inr (List.mem_singleton.mp h)

/-! ### Claim C10: the two delayed-bucket name computations agree -/

/-- Claim C10: for every block height, the delayed-output bucket name
computed by addDSCO (the dsco marker followed by encoding.EncUint64 of
the height) is byte-for-byte the bucket name computed by removeDSCO,
createDSCOBucket, deleteDSCOBucket and forEachDSCO (the marker followed
by encoding.Marshal of the height), so an add lands in the bucket that
createDSCOBucket made and that forEachDSCO and removeDSCO operate on. -/
theorem dsco_bucket_names_agree : ∀ h : Nat, dscoAddName h = dscoName h := by
  intro h
  rw [dscoAddName, dscoName, marshalBlockHeight, encUint64_eq_toBytesLE]

/-! ### Claim C1: addBlockMap on an existing id -/

/-- Claim C1 counterexample: with a block record already stored under the
id, addBlockMap does not abort — it succeeds and overwrites the record
(the stored value changes from the old body to the new one), refuting
the claim that put is fatal on a duplicate id. -/
theorem addBlockMap_duplicate_counterexample :
    bucketGet ((dbGetBucket [(BlockMap, [([1], [7])])] BlockMap).getD []) [1] = some [7] ∧
    addBlockMap [(BlockMap, [([1], [7])])] { blockID := [1], body := [9] } =
      Except.ok [(BlockMap, [([1], [9])])] := by
  constructor
  · rfl
  · rfl

/-- Claim C1 (amended): addBlockMap performs no duplicate check at all —
whenever the BlockMap bucket exists it succeeds unconditionally, storing
the encoded record under the block id (replacing any previous record
with that id, as initDB itself does when it re-adds the genesis block)
and leaving every other id unchanged. -/
theorem addBlockMap_put_semantics (db : DB) (bm : Bucket) (pb : ProcessedBlock)
    (hb : dbGetBucket db BlockMap = some bm) :
    addBlockMap db pb =
      Except.ok (dbSetBucket db BlockMap (bucketPut bm pb.blockID pb.body)) ∧
    bucketGet (bucketPut bm pb.blockID pb.body) pb.blockID = some pb.body ∧
    (∀ id, id ≠ pb.blockID →
      bucketGet (bucketPut bm pb.blockID pb.body) id = bucketGet bm id) := by
  refine ⟨?_, bucketGet_put_self _ _ _, fun id hid => bucketGet_put_ne _ _ _ _ hid⟩
  rw [addBlockMap, hb]

/-- Witness for the amended claim C1 at a concrete store that already
holds a record under the same block id. -/
theorem addBlockMap_put_semantics_witness :
    dbGetBucket [(BlockMap, [([1], [7])])] BlockMap = some [([1], [7])] ∧
    (addBlockMap [(BlockMap, [([1], [7])])] { blockID := [1], body := [9] } =
      Except.ok (dbSetBucket [(BlockMap, [([1], [7])])] BlockMap
        (bucketPut [([1], [7])] [1] [9])) ∧
    bucketGet (bucketPut [([1], [7])] [1] [9]) [1] = some [9] ∧
    (∀ id, id ≠ [1] →
      bucketGet (bucketPut [([1], [7])] [1] [9]) id = bucketGet [([1], [7])] id)) :=
  ⟨by rfl, addBlockMap_put_semantics [(BlockMap, [([1], [7])])] [([1], [7])]
    { blockID := [1], body := [9] } (by rfl)⟩

/-! ### Claim C3: deleteDSCOBucket on a non-empty bucket -/

/-- Claim C3 evaluation at the failing input: a delayed-output bucket at
height 1 still holding one entry is deleted without complaint by
deleteDSCOBucket — the emptiness check the claim describes is only a
TODO comment in the source, so deletion of a non-empty bucket succeeds
instead of being rejected. -/
theorem deleteDSCOBucket_deletes_nonempty :
    dbGetBucket [(dscoName 1, [(List.replicate 32 0, [7])])] (dscoName 1) =
      some [(List.replicate 32 0, [7])] ∧
    deleteDSCOBucket [(dscoName 1, [(List.replicate 32 0, [7])])] 1 = Except.ok [] := by
  constructor
  · rfl
  · rfl

/-! ### Claim C6: removeDSCO tolerates an absent id -/

/-- Claim C6: for a height whose delayed bucket exists, removeDSCO never
aborts: it returns the store with every entry for the id deleted,
together with the diagnostic flag, which is set exactly when the id was
absent (the source prints NIL DSCO and continues, its panic being
commented out); afterwards the id is gone from the bucket. -/
theorem removeDSCO_tolerant (db : DB) (b : Bucket) (h : Nat) (id : Bytes)
    (hb : dbGetBucket db (dscoName h) = some b) :
    removeDSCO db h id =
      Except.ok (dbSetBucket db (dscoName h) (bucketDelete b id), (bucketGet b id).isNone) ∧
    bucketGet (bucketDelete b id) id = none := by
  constructor
  · rw [removeDSCO, hb]
  · rw [bucketGet_delete, if_pos rfl]

/-- Witness for claim C6: an existing (empty) delayed bucket at height 2
and an id that is not in it — removeDSCO succeeds and reports the
diagnostic. -/
theorem removeDSCO_tolerant_witness :
    dbGetBucket [(dscoName 2, [])] (dscoName 2) = some [] ∧
    (removeDSCO [(dscoName 2, [])] 2 [5] =
      Except.ok (dbSetBucket [(dscoName 2, [])] (dscoName 2) (bucketDelete [] [5]),
        (bucketGet [] [5]).isNone) ∧
    bucketGet (bucketDelete [] [5]) [5] = none) :=
  ⟨by rfl, removeDSCO_tolerant [(dscoName 2, [])] [] 2 [5] (by rfl)⟩

/-! ### Claim C7: the fatal paths of the siacoin output ledger -/

/-- Claim C7: with the debug assertions enabled, adding a siacoin output
whose id is already present aborts fatally, and removing an id that is
absent aborts fatally; both fatal paths return an error before any
write, so no state is produced and the stored set is untouched (the
enclosing transaction never commits). -/
theorem siacoinOutput_fatal_paths (db : DB) (b : Bucket) (id1 id2 : Bytes)
    (sco : SiacoinOutput)
    (hb : dbGetBucket db SiacoinOutputs = some b)
    (h1 : (bucketGet b id1).isSome = true)
    (h2 : bucketGet b id2 = none) :
    addSiacoinOutput db id1 sco = Except.error "repeat siacoin output" ∧
    removeSiacoinOutput db id2 = Except.error "nil siacoin output" := by
  constructor
  · simp only [addSiacoinOutput, hb]
    rw [if_pos h1]
  · simp only [removeSiacoinOutput, hb]
    rw [if_pos (show (bucketGet b id2).isNone = true by rw [h2]; rfl)]

/-- Witness for claim C7 at a concrete store holding exactly the output
id one, with id two absent. -/
theorem siacoinOutput_fatal_paths_witness :
    dbGetBucket [(SiacoinOutputs, [([1], [0])])] SiacoinOutputs = some [([1], [0])] ∧
    (bucketGet [([1], [0])] [1]).isSome = true ∧
    bucketGet [([1], [0])] [2] = none ∧
    (addSiacoinOutput [(SiacoinOutputs, [([1], [0])])] [1] { value := 0, unlockHash := [] } =
        Except.error "repeat siacoin output" ∧
      removeSiacoinOutput [(SiacoinOutputs, [([1], [0])])] [2] =
        Except.error "nil siacoin output") :=
  ⟨by rfl, by rfl, by rfl,
    siacoinOutput_fatal_paths [(SiacoinOutputs, [([1], [0])])] [([1], [0])] [1] [2]
      { value := 0, unlockHash := [] } (by rfl) (by rfl) (by rfl)⟩

/-! ### Claim C8: output ledger round-trip -/

/-- Claim C8: for an output id not previously added, add followed by get
returns exactly the added output and isPresent reports true; removing it
afterwards makes isPresent report false. -/
theorem siacoinOutput_roundTrip (db : DB) (b : Bucket) (x : Bytes) (sco : SiacoinOutput)
    (hb : dbGetBucket db SiacoinOutputs = some b)
    (hfresh : bucketGet b x = none)
    (h32 : sco.unlockHash.length = 32)
    (hsz : (toBEBytes sco.value).length < 2 ^ 64) :
    ∃ db1, addSiacoinOutput db x sco = Except.ok db1 ∧
      getSiacoinOutput db1 x = Except.ok sco ∧
      isSiacoinOutput db1 x = Except.ok true ∧
      ∃ db2, removeSiacoinOutput db1 x = Except.ok db2 ∧
        isSiacoinOutput db2 x = Except.ok false := by
  have hnotsome : ¬ (bucketGet b x).isSome = true := by rw [hfresh]; simp
  refine ⟨dbSetBucket db SiacoinOutputs (bucketPut b x (marshalSiacoinOutput sco)),
    ?_, ?_, ?_, ?_⟩
  · simp only [addSiacoinOutput, hb]
    rw [if_neg hnotsome]
  · simp only [getSiacoinOutput, dbGetBucket_set_self, bucketGet_put_self]
    exact unmarshalSiacoinOutput_marshal sco h32 hsz
  · simp only [isSiacoinOutput, dbGetBucket_set_self, bucketGet_put_self, Option.isSome_some]
  · refine ⟨dbSetBucket (dbSetBucket db SiacoinOutputs (bucketPut b x (marshalSiacoinOutput sco)))
      SiacoinOutputs (bucketDelete (bucketPut b x (marshalSiacoinOutput sco)) x), ?_, ?_⟩
    · simp only [removeSiacoinOutput, dbGetBucket_set_self, bucketGet_put_self]
      rw [if_neg (show ¬ (some (marshalSiacoinOutput sco)).isNone = true by simp)]
    · simp [isSiacoinOutput, dbGetBucket_set_self, bucketGet_delete]

/-- Witness for claim C8: a store with an empty output bucket, a fresh
one-byte id and a concrete output of value five. -/
theorem siacoinOutput_roundTrip_witness :
    dbGetBucket [(SiacoinOutputs, [])] SiacoinOutputs = some [] ∧
    bucketGet ([] : Bucket) [1] = none ∧
    (List.replicate 32 1).length = 32 ∧
    (toBEBytes 5).length < 2 ^ 64 ∧
    (∃ db1, addSiacoinOutput [(SiacoinOutputs, [])] [1]
        { value := 5, unlockHash := List.replicate 32 1 } = Except.ok db1 ∧
      getSiacoinOutput db1 [1] =
        Except.ok { value := 5, unlockHash := List.replicate 32 1 } ∧
      isSiacoinOutput db1 [1] = Except.ok true ∧
      ∃ db2, removeSiacoinOutput db1 [1] = Except.ok db2 ∧
        isSiacoinOutput db2 [1] = Except.ok false) :=
  ⟨by rfl, by rfl, by rfl, by decide,
    siacoinOutput_roundTrip [(SiacoinOutputs, [])] [] [1]
      { value := 5, unlockHash := List.replicate 32 1 } (by rfl) (by rfl) (by rfl) (by decide)⟩

/-! ### Claim C5: chain index push and pop round-trip -/

/-- Claim C5: from a state with stored height h (below the uint64
maximum) and a contiguous path, pushPath yields stored height h + 1 with
the new block readable at height h + 1 and every entry at heights up to
h unchanged, and a subsequent popPath restores stored height h and
removes the path entry at h + 1, again leaving the lower entries
unchanged. -/
theorem chainIndex_pushPop_roundTrip (db : DB) (bh bp : Bucket) (h : Nat) (B : Bytes)
    (hbh : dbGetBucket db BlockHeight = some bh)
    (hstored : bucketGet bh BlockHeight = some (marshalBlockHeight h))
    (hbp : dbGetBucket db BlockPath = some bp)
    (hlt : h + 1 < 2 ^ 64)
    (hB : B.length = 32)
    (_hcontig : ∀ k ∈ List.range (h + 1), (bucketGet bp (marshalBlockHeight k)).isSome = true) :
    ∃ db1, pushPath db B = Except.ok db1 ∧
      pathHeightBytes db1 = some (marshalBlockHeight (h + 1)) ∧
      getPath db1 (h + 1) = Except.ok B ∧
      (∀ k ∈ List.range (h + 1), pathEntry db1 k = bucketGet bp (marshalBlockHeight k)) ∧
      ∃ db2, popPath db1 = Except.ok db2 ∧
        pathHeightBytes db2 = some (marshalBlockHeight h) ∧
        pathEntry db2 (h + 1) = none ∧
        (∀ k ∈ List.range (h + 1), pathEntry db2 k = bucketGet bp (marshalBlockHeight k)) := by
  have hnBHBP : BlockHeight ≠ BlockPath := by decide
  have hnBPBH : BlockPath ≠ BlockHeight := by decide
  have hlen8 := marshalBlockHeight_length h
  have hfrom : fromLEBytes (marshalBlockHeight h) = h :=
    fromLEBytes_marshalBlockHeight h (by omega)
  have h264 : (2 : Nat) ^ 64 = 18446744073709551616 := by norm_num
  have hlt' : h + 1 < 18446744073709551616 := by omega
  have hmod : (h + 1) % 2 ^ 64 = h + 1 := Nat.mod_eq_of_lt hlt
  have hmod' : (h + 1) % 18446744073709551616 = h + 1 := Nat.mod_eq_of_lt hlt'
  have hkeyne : ∀ k, k < h + 1 → marshalBlockHeight k ≠ marshalBlockHeight (h + 1) := by
    intro k hk he
    exact absurd (marshalBlockHeight_inj (by omega) hlt he) (by omega)
  refine ⟨dbSetBucket (dbSetBucket db BlockHeight
      (bucketPut bh BlockHeight (marshalBlockHeight (h + 1)))) BlockPath
      (bucketPut bp (marshalBlockHeight (h + 1)) B), ?_, ?_, ?_, ?_, ?_⟩
  · simp [pushPath, hbh, hstored, hfrom, hmod, hmod', hlen8,
      dbGetBucket_set_ne _ _ _ _ hnBPBH, hbp]
  · simp [pathHeightBytes, dbGetBucket_set_ne _ _ _ _ hnBHBP, dbGetBucket_set_self,
      bucketGet_put_self]
  · simp [getPath, dbGetBucket_set_self, bucketGet_put_self, hB]
  · intro k hk
    simp [pathEntry, dbGetBucket_set_self,
      bucketGet_put_ne _ _ _ _ (hkeyne k (List.mem_range.mp hk))]
  · have hsub : (fromLEBytes (marshalBlockHeight (h + 1)) + (2 ^ 64 - 1)) % 2 ^ 64 = h := by
      rw [fromLEBytes_marshalBlockHeight _ hlt]
      omega
    have hsub' : (fromLEBytes (marshalBlockHeight (h + 1)) + 18446744073709551615) %
        18446744073709551616 = h := by
      rw [fromLEBytes_marshalBlockHeight _ hlt]
      omega
    refine ⟨dbSetBucket (dbSetBucket (dbSetBucket (dbSetBucket db BlockHeight
        (bucketPut bh BlockHeight (marshalBlockHeight (h + 1)))) BlockPath
        (bucketPut bp (marshalBlockHeight (h + 1)) B)) BlockHeight
        (bucketPut (bucketPut bh BlockHeight (marshalBlockHeight (h + 1))) BlockHeight
          (marshalBlockHeight h))) BlockPath
        (bucketDelete (bucketPut bp (marshalBlockHeight (h + 1)) B)
          (marshalBlockHeight (h + 1))), ?_, ?_, ?_, ?_⟩
    · simp [popPath, dbGetBucket_set_ne _ _ _ _ hnBHBP, dbGetBucket_set_self,
        bucketGet_put_self, marshalBlockHeight_length, hsub, hsub',
        dbGetBucket_set_ne _ _ _ _ hnBPBH]
    · simp [pathHeightBytes, dbGetBucket_set_ne _ _ _ _ hnBHBP, dbGetBucket_set_self,
        bucketGet_put_self]
    · simp [pathEntry, dbGetBucket_set_self, bucketGet_delete]
    · intro k hk
      simp [pathEntry, dbGetBucket_set_self, bucketGet_delete,
        hkeyne k (List.mem_range.mp hk),
        bucketGet_put_ne _ _ _ _ (hkeyne k (List.mem_range.mp hk))]

/-- Witness for claim C5: a store at height zero whose path holds one
genesis entry; a fresh 32-byte block id is pushed and popped. -/
theorem chainIndex_pushPop_roundTrip_witness :
    dbGetBucket [(BlockHeight, [(BlockHeight, marshalBlockHeight 0)]),
        (BlockPath, [(marshalBlockHeight 0, List.replicate 32 7)])] BlockHeight =
      some [(BlockHeight, marshalBlockHeight 0)] ∧
    bucketGet [(BlockHeight, marshalBlockHeight 0)] BlockHeight =
      some (marshalBlockHeight 0) ∧
    dbGetBucket [(BlockHeight, [(BlockHeight, marshalBlockHeight 0)]),
        (BlockPath, [(marshalBlockHeight 0, List.replicate 32 7)])] BlockPath =
      some [(marshalBlockHeight 0, List.replicate 32 7)] ∧
    0 + 1 < 2 ^ 64 ∧
    (List.replicate 32 9 : Bytes).length = 32 ∧
    (∀ k ∈ List.range (0 + 1),
      (bucketGet [(marshalBlockHeight 0, List.replicate 32 7)]
        (marshalBlockHeight k)).isSome = true) ∧
    (∃ db1, pushPath [(BlockHeight, [(BlockHeight, marshalBlockHeight 0)]),
          (BlockPath, [(marshalBlockHeight 0, List.replicate 32 7)])]
          (List.replicate 32 9) = Except.ok db1 ∧
      pathHeightBytes db1 = some (marshalBlockHeight (0 + 1)) ∧
      getPath db1 (0 + 1) = Except.ok (List.replicate 32 9) ∧
      (∀ k ∈ List.range (0 + 1),
        pathEntry db1 k =
          bucketGet [(marshalBlockHeight 0, List.replicate 32 7)] (marshalBlockHeight k)) ∧
      ∃ db2, popPath db1 = Except.ok db2 ∧
        pathHeightBytes db2 = some (marshalBlockHeight 0) ∧
        pathEntry db2 (0 + 1) = none ∧
        (∀ k ∈ List.range (0 + 1),
          pathEntry db2 k =
            bucketGet [(marshalBlockHeight 0, List.replicate 32 7)] (marshalBlockHeight k))) :=
  ⟨by decide, by decide, by decide, by decide, by decide, by decide,
    chainIndex_pushPop_roundTrip
      [(BlockHeight, [(BlockHeight, marshalBlockHeight 0)]),
        (BlockPath, [(marshalBlockHeight 0, List.replicate 32 7)])]
      [(BlockHeight, marshalBlockHeight 0)]
      [(marshalBlockHeight 0, List.replicate 32 7)]
      0 (List.replicate 32 9)
      (by decide) (by decide) (by decide) (by decide) (by decide) (by decide)⟩

/-! ### File-contract helper lemmas -/

theorem encUint64_length (n : Nat) : (encUint64 n).length = 8 := rfl

theorem fcexName_take (w : Bytes) : (pre_fcex ++ w).take 5 = pre_fcex := by
  rw [show (5 : Nat) = pre_fcex.length from rfl, List.take_left]

theorem fcexName_ne_FileContracts (w : Bytes) : pre_fcex ++ w ≠ FileContracts := by
  intro h
  have h5 := congrArg (List.take 5) h
  rw [fcexName_take] at h5
  exact absurd h5 (by decide)

theorem windowEndBytes_marshalFileContract (fc : FileContract)
    (h32 : fc.fileMerkleRoot.length = 32) :
    windowEndBytes (marshalFileContract fc) = encUint64 fc.windowEnd := by
  have hpre : marshalFileContract fc =
      (encUint64 fc.fileSize ++ fc.fileMerkleRoot ++ encUint64 fc.windowStart) ++
        (encUint64 fc.windowEnd ++ fc.tail) := by
    simp [marshalFileContract, List.append_assoc]
  have hlen :
      (encUint64 fc.fileSize ++ fc.fileMerkleRoot ++ encUint64 fc.windowStart).length = 48 := by
    simp [List.length_append, encUint64_length, h32]
  rw [windowEndBytes, hpre, ← hlen, List.drop_left, ← encUint64_length fc.windowEnd,
    List.take_left]

theorem windowEndBytes_marshal_eq (fc : FileContract)
    (h32 : fc.fileMerkleRoot.length = 32) :
    windowEndBytes (marshalFileContract fc) = marshalBlockHeight fc.windowEnd := by
  rw [windowEndBytes_marshalFileContract fc h32, encUint64_eq_toBytesLE, marshalBlockHeight]

theorem marshalFileContract_length (fc : FileContract)
    (h32 : fc.fileMerkleRoot.length = 32) :
    56 ≤ (marshalFileContract fc).length := by
  simp [marshalFileContract, List.length_append, encUint64_length, h32]
  omega

theorem fcPrimary_some {db : DB} {id v : Bytes}
    (h : bucketGet (fcPrimary db) id = some v) :
    dbGetBucket db FileContracts = some (fcPrimary db) := by
  cases hd : dbGetBucket db FileContracts with
  | some b => simp [fcPrimary, hd]
  | none => rw [fcPrimary, hd] at h; simp [bucketGet] at h

theorem addFileContract_spec (db : DB) (fcb : Bucket) (id : Bytes) (fc : FileContract)
    (hfcb : dbGetBucket db FileContracts = some fcb)
    (hfresh : bucketGet fcb id = none) :
    ∃ db3, addFileContract db id fc = Except.ok db3 ∧
      dbGetBucket db3 FileContracts = some (bucketPut fcb id (marshalFileContract fc)) ∧
      dbGetBucket db3 (pre_fcex ++ marshalBlockHeight fc.windowEnd) =
        some (bucketPut
          ((dbGetBucket db (pre_fcex ++ marshalBlockHeight fc.windowEnd)).getD []) id []) ∧
      (∀ nm, nm ≠ FileContracts → nm ≠ pre_fcex ++ marshalBlockHeight fc.windowEnd →
        dbGetBucket db3 nm = dbGetBucket db nm) ∧
      (∀ bk ∈ db3,
        bk = (FileContracts, bucketPut fcb id (marshalFileContract fc)) ∨
        bk = (pre_fcex ++ marshalBlockHeight fc.windowEnd,
          bucketPut ((dbGetBucket db (pre_fcex ++ marshalBlockHeight fc.windowEnd)).getD [])
            id []) ∨
        (bk ∈ db ∧ bk.1 ≠ FileContracts ∧
          bk.1 ≠ pre_fcex ++ marshalBlockHeight fc.windowEnd)) := by
  have hne : FileContracts ≠ pre_fcex ++ marshalBlockHeight fc.windowEnd :=
    (fcexName_ne_FileContracts _).symm
  have hgetd : (dbGetBucket (createBucketIfNotExistsDB
      (dbSetBucket db FileContracts (bucketPut fcb id (marshalFileContract fc)))
      (pre_fcex ++ marshalBlockHeight fc.windowEnd))
      (pre_fcex ++ marshalBlockHeight fc.windowEnd)).getD []
      = (dbGetBucket db (pre_fcex ++ marshalBlockHeight fc.windowEnd)).getD [] := by
    rw [dbGetBucket_createIfNot_self, Option.getD_some,
      dbGetBucket_set_ne _ _ _ _ (fcexName_ne_FileContracts _)]
  refine ⟨dbSetBucket (createBucketIfNotExistsDB
      (dbSetBucket db FileContracts (bucketPut fcb id (marshalFileContract fc)))
      (pre_fcex ++ marshalBlockHeight fc.windowEnd))
      (pre_fcex ++ marshalBlockHeight fc.windowEnd)
      (bucketPut ((dbGetBucket db (pre_fcex ++ marshalBlockHeight fc.windowEnd)).getD []) id []),
    ?_, ?_, ?_, ?_, ?_⟩
  · simp only [addFileContract, hfcb]
    rw [if_neg (show ¬ (bucketGet fcb id).isSome = true by rw [hfresh]; simp)]
    rw [hgetd]
  · rw [dbGetBucket_set_ne _ _ _ _ hne, dbGetBucket_createIfNot_ne _ _ _ hne,
      dbGetBucket_set_self]
  · rw [dbGetBucket_set_self]
  · intro nm h1 h2
    rw [dbGetBucket_set_ne _ _ _ _ h2, dbGetBucket_createIfNot_ne _ _ _ h2,
      dbGetBucket_set_ne _ _ _ _ h1]
  · intro bk hbk
    rcases mem_dbSetBucket.mp hbk with h | ⟨h, hne2⟩
    · exact Or.inr (Or.inl h)
    · rcases mem_createBucketIfNotExistsDB h with h3 | h3
      · rcases mem_dbSetBucket.mp h3 with h4 | ⟨h4, hne4⟩
        · exact Or.inl h4
        · exact Or.inr (Or.inr ⟨h4, hne4, hne2⟩)
      · exact absurd (congrArg Prod.fst h3) hne2

theorem removeFileContract_spec (db : DB) (fcb expb : Bucket) (id v m : Bytes)
    (hfcb : dbGetBucket db FileContracts = some fcb)
    (hv : bucketGet fcb id = some v)
    (hlen : 56 ≤ v.length)
    (hexp : dbGetBucket db (pre_fcex ++ windowEndBytes v) = some expb)
    (hmark : bucketGet expb id = some m) :
    ∃ db2, removeFileContract db id = Except.ok db2 ∧
      dbGetBucket db2 FileContracts = some (bucketDelete fcb id) ∧
      dbGetBucket db2 (pre_fcex ++ windowEndBytes v) = some (bucketDelete expb id) ∧
      (∀ nm, nm ≠ FileContracts → nm ≠ pre_fcex ++ windowEndBytes v →
        dbGetBucket db2 nm = dbGetBucket db nm) ∧
      (∀ bk ∈ db2,
        bk = (FileContracts, bucketDelete fcb id) ∨
        bk = (pre_fcex ++ windowEndBytes v, bucketDelete expb id) ∨
        (bk ∈ db ∧ bk.1 ≠ FileContracts ∧ bk.1 ≠ pre_fcex ++ windowEndBytes v)) := by
  have hne : FileContracts ≠ pre_fcex ++ windowEndBytes v :=
    (fcexName_ne_FileContracts _).symm
  refine ⟨dbSetBucket (dbSetBucket db FileContracts (bucketDelete fcb id))
      (pre_fcex ++ windowEndBytes v) (bucketDelete expb id), ?_, ?_, ?_, ?_, ?_⟩
  · simp only [removeFileContract, hfcb, hv]
    rw [if_neg (Nat.not_lt.mpr hlen)]
    simp only [dbGetBucket_set_ne _ _ _ _ (fcexName_ne_FileContracts _), hexp]
    rw [if_neg (show ¬ (bucketGet expb id).isNone = true by rw [hmark]; simp)]
  · rw [dbGetBucket_set_ne _ _ _ _ hne, dbGetBucket_set_self]
  · rw [dbGetBucket_set_self]
  · intro nm h1 h2
    rw [dbGetBucket_set_ne _ _ _ _ h2, dbGetBucket_set_ne _ _ _ _ h1]
  · intro bk hbk
    rcases mem_dbSetBucket.mp hbk with h | ⟨h, hne2⟩
    · exact Or.inr (Or.inl h)
    · rcases mem_dbSetBucket.mp h with h4 | ⟨h4, hne4⟩
      · exact Or.inl h4
      · exact Or.inr (Or.inr ⟨h4, hne4, hne2⟩)

theorem removeFileContract_fatal (db : DB) (id v : Bytes)
    (hv : bucketGet (fcPrimary db) id = some v)
    (hmark : markerLookup db (windowEndBytes v) id = none) :
    ∃ e, removeFileContract db id = Except.error e := by
  have hfcb := fcPrimary_some hv
  by_cases h56 : v.length < 56
  · refine ⟨"slice out of range", ?_⟩
    simp only [removeFileContract, hfcb, hv]
    rw [if_pos h56]
  · cases hexp : dbGetBucket db (pre_fcex ++ windowEndBytes v) with
    | none =>
      refine ⟨"nil bucket", ?_⟩
      simp only [removeFileContract, hfcb, hv]
      rw [if_neg h56]
      rw [dbGetBucket_set_ne _ _ _ _ (fcexName_ne_FileContracts _), hexp]
    | some expb =>
      simp only [markerLookup, hexp] at hmark
      refine ⟨"requested item does not exist", ?_⟩
      simp only [removeFileContract, hfcb, hv]
      rw [if_neg h56]
      simp only [dbGetBucket_set_ne _ _ _ _ (fcexName_ne_FileContracts _), hexp]
      rw [if_pos (show (bucketGet expb id).isNone = true by rw [hmark]; rfl)]

/-! ### Claim C2: contract expiration index consistency -/

/-- Claim C2: under the expiration-index consistency invariant, a marker
exists in the expiration bucket named by bytes 48-56 of a stored record
exactly when the contract is present in the primary bucket; adding a
fresh contract inserts the primary record and its marker together
(creating the expiration bucket on demand) and preserves the invariant;
removing it deletes both together, deriving the window end from the
stored encoded bytes, and preserves the invariant; and on any store
where the derived marker is missing for a stored contract, remove aborts
fatally. -/
theorem fileContract_expiration_consistency (db : DB) (id : Bytes) (fc : FileContract)
    (hInv : fcInv db)
    (hRoot : fc.fileMerkleRoot.length = 32)
    (hBucketSome : (dbGetBucket db FileContracts).isSome = true)
    (hFresh : bucketGet (fcPrimary db) id = none) :
    ((∀ e ∈ fcPrimary db, markerLookup db (windowEndBytes e.2) e.1 = some []) ∧
      (∀ nm bk, dbGetBucket db nm = some bk → List.take 5 nm = pre_fcex →
        ∀ e ∈ bk, ∃ v, bucketGet (fcPrimary db) e.1 = some v ∧
          pre_fcex ++ windowEndBytes v = nm)) ∧
    (∃ dbA, addFileContract db id fc = Except.ok dbA ∧
      bucketGet (fcPrimary dbA) id = some (marshalFileContract fc) ∧
      markerLookup dbA (windowEndBytes (marshalFileContract fc)) id = some [] ∧
      fcInv dbA ∧
      ∃ dbR, removeFileContract dbA id = Except.ok dbR ∧
        bucketGet (fcPrimary dbR) id = none ∧
        markerLookup dbR (windowEndBytes (marshalFileContract fc)) id = none ∧
        fcInv dbR) ∧
    (∀ dbx idx vx, bucketGet (fcPrimary dbx) idx = some vx →
      markerLookup dbx (windowEndBytes vx) idx = none →
      ∃ e, removeFileContract dbx idx = Except.error e) := by
  obtain ⟨hInv1, hInv2⟩ := hInv
  obtain ⟨fcb, hfcb⟩ := Option.isSome_iff_exists.mp hBucketSome
  have hprim : fcPrimary db = fcb := by simp [fcPrimary, hfcb]
  have hfresh' : bucketGet fcb id = none := by rw [← hprim]; exact hFresh
  rw [hprim] at hInv1 hInv2
  have hwebm : windowEndBytes (marshalFileContract fc) = marshalBlockHeight fc.windowEnd :=
    windowEndBytes_marshal_eq fc hRoot
  obtain ⟨dbA, haddeq, hP, hE, hF, hM⟩ := addFileContract_spec db fcb id fc hfcb hfresh'
  have hprimA : fcPrimary dbA = bucketPut fcb id (marshalFileContract fc) := by
    simp [fcPrimary, hP]
  have hmarkA : markerLookup dbA (windowEndBytes (marshalFileContract fc)) id = some [] := by
    simp only [markerLookup, hwebm, hE, bucketGet_put_self]
  have hInvA : fcInv dbA := by
    constructor
    · intro e he
      rw [hprimA] at he
      rcases mem_bucketPut.mp he with he1 | ⟨he1, hne1⟩
      · subst he1
        exact ⟨marshalFileContract_length fc hRoot, hmarkA⟩
      · obtain ⟨h56e, hmarke⟩ := hInv1 e he1
        refine ⟨h56e, ?_⟩
        by_cases hnm :
            pre_fcex ++ windowEndBytes e.2 = pre_fcex ++ marshalBlockHeight fc.windowEnd
        · simp only [markerLookup] at hmarke ⊢
          rw [hnm] at hmarke ⊢
          cases hold : dbGetBucket db (pre_fcex ++ marshalBlockHeight fc.windowEnd) with
          | none => simp [hold] at hmarke
          | some oldb =>
            simp only [hold] at hmarke
            simp only [hE, bucketGet_put_ne _ _ _ _ hne1, hold, Option.getD_some]
            exact hmarke
        · simp only [markerLookup] at hmarke ⊢
          rw [hF _ (fcexName_ne_FileContracts _) hnm]
          exact hmarke
    · intro bk hbk h5 e he
      rcases hM bk hbk with hbkE | hbkE | ⟨hmem, hneFC, hneE⟩
      · rw [hbkE] at h5
        exact absurd h5 (show ¬ List.take 5 FileContracts = pre_fcex by decide)
      · rw [hbkE] at he ⊢
        rcases mem_bucketPut.mp he with he1 | ⟨he1, hne1⟩
        · rw [he1]
          rw [hprimA, bucketGet_put_self]
          simp [hwebm]
        · cases hold : dbGetBucket db (pre_fcex ++ marshalBlockHeight fc.windowEnd) with
          | none => rw [hold] at he1; simp at he1
          | some oldb =>
            rw [hold] at he1
            simp only [Option.getD_some] at he1
            have h := hInv2 (pre_fcex ++ marshalBlockHeight fc.windowEnd, oldb)
              (dbGetBucket_mem hold) (fcexName_take _) e he1
            cases hv2 : bucketGet fcb e.1 with
            | none => rw [hv2] at h; simp at h
            | some v2 =>
              rw [hv2] at h
              rw [hprimA, bucketGet_put_ne _ _ _ _ hne1, hv2]
              exact h
      · have h := hInv2 bk hmem h5 e he
        by_cases he1 : e.1 = id
        · rw [he1, hfresh'] at h
          simp at h
        · cases hv2 : bucketGet fcb e.1 with
          | none => rw [hv2] at h; simp at h
          | some v2 =>
            rw [hv2] at h
            rw [hprimA, bucketGet_put_ne _ _ _ _ he1, hv2]
            exact h
  have hexpA : dbGetBucket dbA (pre_fcex ++ windowEndBytes (marshalFileContract fc)) =
      some (bucketPut
        ((dbGetBucket db (pre_fcex ++ marshalBlockHeight fc.windowEnd)).getD []) id []) := by
    rw [hwebm]
    exact hE
  obtain ⟨dbR, hremeq, hPR, hER, hFR, hMR⟩ := removeFileContract_spec dbA
    (bucketPut fcb id (marshalFileContract fc))
    (bucketPut ((dbGetBucket db (pre_fcex ++ marshalBlockHeight fc.windowEnd)).getD []) id [])
    id (marshalFileContract fc) [] hP (bucketGet_put_self _ _ _)
    (marshalFileContract_length fc hRoot) hexpA (bucketGet_put_self _ _ _)
  have hprimR : fcPrimary dbR =
      bucketDelete (bucketPut fcb id (marshalFileContract fc)) id := by
    simp [fcPrimary, hPR]
  have hQ1 : bucketGet (fcPrimary dbR) id = none := by
    rw [hprimR, bucketGet_delete, if_pos rfl]
  have hQ2 : markerLookup dbR (windowEndBytes (marshalFileContract fc)) id = none := by
    simp only [markerLookup, hER]
    rw [bucketGet_delete, if_pos rfl]
  have hInvR : fcInv dbR := by
    constructor
    · intro e he
      rw [hprimR] at he
      obtain ⟨heP, hne1⟩ := mem_bucketDelete.mp he
      rcases mem_bucketPut.mp heP with he1 | ⟨he1, _⟩
      · exact absurd (congrArg Prod.fst he1) hne1
      · obtain ⟨h56e, hmarke⟩ := hInv1 e he1
        refine ⟨h56e, ?_⟩
        by_cases hnm : pre_fcex ++ windowEndBytes e.2 =
            pre_fcex ++ windowEndBytes (marshalFileContract fc)
        · simp only [markerLookup] at hmarke ⊢
          rw [hnm] at hmarke ⊢
          rw [hwebm] at hmarke
          simp only [hER]
          rw [bucketGet_delete, if_neg hne1, bucketGet_put_ne _ _ _ _ hne1]
          cases hold : dbGetBucket db (pre_fcex ++ marshalBlockHeight fc.windowEnd) with
          | none => simp [hold] at hmarke
          | some oldb =>
            simp only [hold] at hmarke
            simp only [hold, Option.getD_some]
            exact hmarke
        · have hnm2 : pre_fcex ++ windowEndBytes e.2 ≠
              pre_fcex ++ marshalBlockHeight fc.windowEnd := by
            rw [← hwebm]
            exact hnm
          simp only [markerLookup] at hmarke ⊢
          rw [hFR _ (fcexName_ne_FileContracts _) hnm,
            hF _ (fcexName_ne_FileContracts _) hnm2]
          exact hmarke
    · intro bk hbk h5 e he
      rcases hMR bk hbk with hbkE | hbkE | ⟨hmemA, hneFC, hneE⟩
      · rw [hbkE] at h5
        exact absurd h5 (show ¬ List.take 5 FileContracts = pre_fcex by decide)
      · rw [hbkE] at he ⊢
        obtain ⟨heP, hne1⟩ := mem_bucketDelete.mp he
        rcases mem_bucketPut.mp heP with he1 | ⟨he1, _⟩
        · exact absurd (congrArg Prod.fst he1) hne1
        · cases hold : dbGetBucket db (pre_fcex ++ marshalBlockHeight fc.windowEnd) with
          | none => rw [hold] at he1; simp at he1
          | some oldb =>
            rw [hold] at he1
            simp only [Option.getD_some] at he1
            have h := hInv2 (pre_fcex ++ marshalBlockHeight fc.windowEnd, oldb)
              (dbGetBucket_mem hold) (fcexName_take _) e he1
            cases hv2 : bucketGet fcb e.1 with
            | none => rw [hv2] at h; simp at h
            | some v2 =>
              rw [hv2] at h
              rw [hprimR, bucketGet_delete, if_neg hne1,
                bucketGet_put_ne _ _ _ _ hne1, hv2]
              simpa [hwebm] using h
      · rcases hM bk hmemA with hbk2 | hbk2 | ⟨hmem, hneFC2, hneE2⟩
        · exact absurd (congrArg Prod.fst hbk2) hneFC
        · have hbk1 : bk.1 = pre_fcex ++ windowEndBytes (marshalFileContract fc) := by
            rw [hwebm]
            exact congrArg Prod.fst hbk2
          exact absurd hbk1 hneE
        · have h := hInv2 bk hmem h5 e he
          by_cases he1 : e.1 = id
          · rw [he1, hfresh'] at h
            simp at h
          · cases hv2 : bucketGet fcb e.1 with
            | none => rw [hv2] at h; simp at h
            | some v2 =>
              rw [hv2] at h
              rw [hprimR, bucketGet_delete, if_neg he1,
                bucketGet_put_ne _ _ _ _ he1, hv2]
              exact h
  refine ⟨⟨?_, ?_⟩, ⟨dbA, haddeq, ?_, hmarkA, hInvA, dbR, hremeq, hQ1, hQ2, hInvR⟩,
    fun dbx idx vx hvx hmx => removeFileContract_fatal dbx idx vx hvx hmx⟩
  · intro e he
    exact (hInv1 e (hprim ▸ he)).2
  · intro nm bk hnm h5 e he
    have h := hInv2 (nm, bk) (dbGetBucket_mem hnm) h5 e he
    cases hv : bucketGet fcb e.1 with
    | none => rw [hv] at h; simp at h
    | some v =>
      rw [hv] at h
      simp only [Option.map_some'] at h
      exact ⟨v, by rw [hprim]; exact hv, Option.some.inj h⟩
  · rw [hprimA]
    exact bucketGet_put_self _ _ _

/-- Witness for claim C2: an empty primary contract bucket, a fresh
one-byte contract id and a concrete contract with a 32-byte Merkle root
and window end three. -/
theorem fileContract_expiration_consistency_witness :
    fcInv [(FileContracts, [])] ∧
    ({ fileSize := 0, fileMerkleRoot := List.replicate 32 0, windowStart := 0,
        windowEnd := 3, tail := [] } : FileContract).fileMerkleRoot.length = 32 ∧
    (dbGetBucket [(FileContracts, [])] FileContracts).isSome = true ∧
    bucketGet (fcPrimary [(FileContracts, [])]) [1] = none ∧
    (((∀ e ∈ fcPrimary [(FileContracts, [])],
        markerLookup [(FileContracts, [])] (windowEndBytes e.2) e.1 = some []) ∧
      (∀ nm bk, dbGetBucket [(FileContracts, [])] nm = some bk →
        List.take 5 nm = pre_fcex →
        ∀ e ∈ bk, ∃ v, bucketGet (fcPrimary [(FileContracts, [])]) e.1 = some v ∧
          pre_fcex ++ windowEndBytes v = nm)) ∧
    (∃ dbA, addFileContract [(FileContracts, [])] [1]
        { fileSize := 0, fileMerkleRoot := List.replicate 32 0, windowStart := 0,
          windowEnd := 3, tail := [] } = Except.ok dbA ∧
      bucketGet (fcPrimary dbA) [1] =
        some (marshalFileContract
          { fileSize := 0, fileMerkleRoot := List.replicate 32 0, windowStart := 0,
            windowEnd := 3, tail := [] }) ∧
      markerLookup dbA (windowEndBytes (marshalFileContract
          { fileSize := 0, fileMerkleRoot := List.replicate 32 0, windowStart := 0,
            windowEnd := 3, tail := [] })) [1] = some [] ∧
      fcInv dbA ∧
      ∃ dbR, removeFileContract dbA [1] = Except.ok dbR ∧
        bucketGet (fcPrimary dbR) [1] = none ∧
        markerLookup dbR (windowEndBytes (marshalFileContract
            { fileSize := 0, fileMerkleRoot := List.replicate 32 0, windowStart := 0,
              windowEnd := 3, tail := [] })) [1] = none ∧
        fcInv dbR) ∧
    (∀ dbx idx vx, bucketGet (fcPrimary dbx) idx = some vx →
      markerLookup dbx (windowEndBytes vx) idx = none →
      ∃ e, removeFileContract dbx idx = Except.error e)) := by
  have hInvW : fcInv [(FileContracts, [])] := by
    constructor
    · intro e he
      exact absurd he (List.not_mem_nil e)
    · intro bk hbk h5 e he
      rw [List.mem_singleton.mp hbk] at h5
      exact absurd h5 (show ¬ List.take 5 FileContracts = pre_fcex by decide)
  exact ⟨hInvW, by rfl, by rfl, by rfl,
    fileContract_expiration_consistency [(FileContracts, [])] [1]
      { fileSize := 0, fileMerkleRoot := List.replicate 32 0, windowStart := 0,
        windowEnd := 3, tail := [] }
      hInvW (by rfl) (by rfl) (by rfl)⟩

/-! ### Initializer lemmas -/

theorem applySiafundDiffs_spec (diffs : List (Bytes × Bytes)) :
    ∀ db sfb, dbGetBucket db SiafundOutputs = some sfb →
    (diffs.map Prod.fst).Nodup →
    (∀ d ∈ diffs, bucketGet sfb d.1 = none) →
    ∃ db', applySiafundDiffs db diffs = Except.ok db' ∧
      (∀ nm, nm ≠ SiafundOutputs → dbGetBucket db' nm = dbGetBucket db nm) := by
  induction diffs with
  | nil =>
    intro db sfb hsfb hnd hfresh
    exact ⟨db, rfl, fun nm hnm => rfl⟩
  | cons d rest ih =>
    intro db sfb hsfb hnd hfresh
    have hfreshd : bucketGet sfb d.1 = none := hfresh d (List.mem_cons_self _ _)
    have haddeq : addSiafundOutput db d.1 d.2 =
        Except.ok (dbSetBucket db SiafundOutputs (bucketPut sfb d.1 d.2)) := by
      simp only [addSiafundOutput, hsfb]
      rw [if_neg (show ¬ (bucketGet sfb d.1).isSome = true by rw [hfreshd]; simp)]
    have hnd' : (rest.map Prod.fst).Nodup := (List.nodup_cons.mp hnd).2
    have hd1 : d.1 ∉ rest.map Prod.fst := (List.nodup_cons.mp hnd).1
    have hfresh' : ∀ e ∈ rest, bucketGet (bucketPut sfb d.1 d.2) e.1 = none := by
      intro e he
      have hne : e.1 ≠ d.1 := fun hh => hd1 (hh ▸ List.mem_map_of_mem Prod.fst he)
      rw [bucketGet_put_ne _ _ _ _ hne]
      exact hfresh e (List.mem_cons_of_mem _ he)
    obtain ⟨db', heq, hframe⟩ := ih (dbSetBucket db SiafundOutputs (bucketPut sfb d.1 d.2))
      (bucketPut sfb d.1 d.2) (dbGetBucket_set_self _ _ _) hnd' hfresh'
    refine ⟨db', ?_, ?_⟩
    · simp only [applySiafundDiffs, haddeq, dbSeq]
      exact heq
    · intro nm hnm
      rw [hframe nm hnm, dbGetBucket_set_ne _ _ _ _ hnm]

theorem initDB_empty_spec (cs : BlockRoot) (hnd : (cs.sfDiffs.map Prod.fst).Nodup) :
    ∃ dF, initDB cs [] = Except.ok dF ∧
      dbGetBucket dF BlockHeight = some [(BlockHeight, marshalBlockHeight 0)] ∧
      dbGetBucket dF BlockPath = some [(marshalBlockHeight 0, cs.blockID)] ∧
      dbGetBucket dF SiafundPool = some [(SiafundPool, marshalCurrency 0)] ∧
      dbGetBucket dF SiacoinOutputs = some [(cs.payoutID, marshalSiacoinOutput
        { value := calculateCoinbase 0, unlockHash := List.replicate 32 0 })] := by
  set D1 : DB := [(BlockHeight, [(BlockHeight, marshalBlockHeight genesisHeightInit)]),
    (BlockPath, []), (BlockMap, []), (SiacoinOutputs, []), (FileContracts, []),
    (FileContractExpirations, []), (SiafundOutputs, []), (SiafundPool, [])] with hD1
  set D2 : DB := [(BlockMap, [(cs.blockID, cs.body1)]),
    (BlockHeight, [(BlockHeight, marshalBlockHeight genesisHeightInit)]),
    (BlockPath, []), (SiacoinOutputs, []), (FileContracts, []),
    (FileContractExpirations, []), (SiafundOutputs, []), (SiafundPool, [])] with hD2
  set D3 : DB := [(BlockPath, [(marshalBlockHeight 0, cs.blockID)]),
    (BlockHeight, [(BlockHeight, marshalBlockHeight 0)]),
    (BlockMap, [(cs.blockID, cs.body1)]), (SiacoinOutputs, []), (FileContracts, []),
    (FileContractExpirations, []), (SiafundOutputs, []), (SiafundPool, [])] with hD3
  set D4 : DB := [(SiafundPool, [(SiafundPool, marshalCurrency 0)]),
    (BlockPath, [(marshalBlockHeight 0, cs.blockID)]),
    (BlockHeight, [(BlockHeight, marshalBlockHeight 0)]),
    (BlockMap, [(cs.blockID, cs.body1)]), (SiacoinOutputs, []), (FileContracts, []),
    (FileContractExpirations, []), (SiafundOutputs, [])] with hD4
  have h1 : initHeightStage (initBuckets []) = Except.ok D1 := by rw [hD1]; rfl
  have h2 : addBlockMap D1 { blockID := cs.blockID, body := cs.body1 } = Except.ok D2 := by
    rw [hD1, hD2]; rfl
  have h3 : pushPath D2 cs.blockID = Except.ok D3 := by rw [hD2, hD3]; rfl
  have h4 : setSiafundPool D3 0 = Except.ok D4 := by rw [hD3, hD4]; rfl
  simp only [initDB]
  rw [h1]
  simp only [dbSeq]
  rw [h2]
  simp only [dbSeq]
  rw [h3]
  simp only [dbSeq]
  rw [h4]
  simp only [dbSeq]
  obtain ⟨d5, h5eq, h5f⟩ := applySiafundDiffs_spec cs.sfDiffs D4 []
    (by rw [hD4]; rfl) hnd (fun d _ => rfl)
  rw [h5eq]
  simp only [dbSeq]
  have hSC5 : dbGetBucket d5 SiacoinOutputs = some [] := by
    rw [h5f _ (by decide), hD4]
    rfl
  have h6 : addSiacoinOutput d5 cs.payoutID
      { value := calculateCoinbase 0, unlockHash := List.replicate 32 0 } =
      Except.ok (dbSetBucket d5 SiacoinOutputs (bucketPut [] cs.payoutID
        (marshalSiacoinOutput
          { value := calculateCoinbase 0, unlockHash := List.replicate 32 0 }))) := by
    simp only [addSiacoinOutput, hSC5]
    rfl
  rw [h6]
  simp only [dbSeq]
  have hBM6 : dbGetBucket (dbSetBucket d5 SiacoinOutputs (bucketPut [] cs.payoutID
      (marshalSiacoinOutput { value := calculateCoinbase 0, unlockHash := List.replicate 32 0 })))
      BlockMap = some [(cs.blockID, cs.body1)] := by
    rw [dbGetBucket_set_ne _ _ _ _ (by decide), h5f _ (by decide), hD4]
    rfl
  have h7 : addBlockMap (dbSetBucket d5 SiacoinOutputs (bucketPut [] cs.payoutID
      (marshalSiacoinOutput { value := calculateCoinbase 0, unlockHash := List.replicate 32 0 })))
      { blockID := cs.blockID, body := cs.body2 } =
      Except.ok (dbSetBucket (dbSetBucket d5 SiacoinOutputs (bucketPut [] cs.payoutID
        (marshalSiacoinOutput { value := calculateCoinbase 0, unlockHash := List.replicate 32 0 })))
        BlockMap (bucketPut [(cs.blockID, cs.body1)] cs.blockID cs.body2)) := by
    simp only [addBlockMap, hBM6]
  rw [h7]
  refine ⟨_, rfl, ?_, ?_, ?_, ?_⟩
  · rw [dbGetBucket_set_ne _ _ _ _ (by decide), dbGetBucket_set_ne _ _ _ _ (by decide),
      h5f _ (by decide), hD4]
    rfl
  · rw [dbGetBucket_set_ne _ _ _ _ (by decide), dbGetBucket_set_ne _ _ _ _ (by decide),
      h5f _ (by decide), hD4]
    rfl
  · rw [dbGetBucket_set_ne _ _ _ _ (by decide), dbGetBucket_set_ne _ _ _ _ (by decide),
      h5f _ (by decide), hD4]
    rfl
  · rw [dbGetBucket_set_ne _ _ _ _ (by decide), dbGetBucket_set_self]
    rfl

/-! ### Claim C9: initializer postcondition -/

/-- Claim C9: running initDB on an empty store yields chain height
exactly 0, the genesis block id stored at path height 0, a siafund pool
equal to zero, and exactly one output in the output ledger — the genesis
miner payout, whose unlock hash is all-zero and whose value equals the
coinbase amount for height 0. -/
theorem initDB_genesis (cs : BlockRoot)
    (hnd : (cs.sfDiffs.map Prod.fst).Nodup)
    (hid : cs.blockID.length = 32) :
    ∃ dF, initDB cs [] = Except.ok dF ∧
      blockHeight dF = Except.ok 0 ∧
      getPath dF 0 = Except.ok cs.blockID ∧
      getSiafundPool dF = Except.ok 0 ∧
      dbGetBucket dF SiacoinOutputs =
        some [(cs.payoutID, marshalSiacoinOutput
          { value := calculateCoinbase 0, unlockHash := List.replicate 32 0 })] := by
  obtain ⟨dF, hinit, hBH, hBP, hSP, hSC⟩ := initDB_empty_spec cs hnd
  refine ⟨dF, hinit, ?_, ?_, ?_, hSC⟩
  · simp only [blockHeight, hBH]
    rfl
  · simp only [getPath, hBP,
      show bucketGet [(marshalBlockHeight 0, cs.blockID)] (marshalBlockHeight 0) =
        some cs.blockID from rfl]
    rw [if_pos hid]
  · simp only [getSiafundPool, hSP,
      show bucketGet [(SiafundPool, marshalCurrency 0)] SiafundPool =
        some (marshalCurrency 0) from rfl]
    exact unmarshalCurrency_marshalCurrency 0 (by decide)

/-- Witness for claim C9: a concrete genesis state with a 32-byte block
id, a 32-byte payout id and no siafund diffs. -/
theorem initDB_genesis_witness :
    ((⟨List.replicate 32 3, [1], [2], List.replicate 32 4, []⟩ :
        BlockRoot).sfDiffs.map Prod.fst).Nodup ∧
    (⟨List.replicate 32 3, [1], [2], List.replicate 32 4, []⟩ :
        BlockRoot).blockID.length = 32 ∧
    (∃ dF, initDB ⟨List.replicate 32 3, [1], [2], List.replicate 32 4, []⟩ [] =
        Except.ok dF ∧
      blockHeight dF = Except.ok 0 ∧
      getPath dF 0 =
        Except.ok (⟨List.replicate 32 3, [1], [2], List.replicate 32 4, []⟩ :
          BlockRoot).blockID ∧
      getSiafundPool dF = Except.ok 0 ∧
      dbGetBucket dF SiacoinOutputs =
        some [((⟨List.replicate 32 3, [1], [2], List.replicate 32 4, []⟩ :
            BlockRoot).payoutID, marshalSiacoinOutput
          { value := calculateCoinbase 0, unlockHash := List.replicate 32 0 })]) :=
  ⟨by decide, by decide,
    initDB_genesis ⟨List.replicate 32 3, [1], [2], List.replicate 32 4, []⟩
      (by decide) (by decide)⟩

/-! ### Claim C4: the underflowed genesis counter -/

/-- Claim C4: genesis initialization stores the height counter value
minus one — the unsigned BlockHeight 0 minus 1, which is 2 to the 64
minus 1 — before the first push; after the genesis block is pushed the
height read back by blockHeight is exactly 0; and blockHeight aborts
fatally whenever the stored counter decodes to a negative machine
integer (top bit set). -/
theorem genesis_counter_underflow (cs : BlockRoot)
    (hnd : (cs.sfDiffs.map Prod.fst).Nodup) :
    genesisHeightInit = 2 ^ 64 - 1 ∧
    (∃ d1, initHeightStage (initBuckets []) = Except.ok d1 ∧
      pathHeightBytes d1 = some (marshalBlockHeight (2 ^ 64 - 1))) ∧
    (∃ dF, initDB cs [] = Except.ok dF ∧ blockHeight dF = Except.ok 0) ∧
    (∀ dbx bhx bytes, dbGetBucket dbx BlockHeight = some bhx →
      bucketGet bhx BlockHeight = some bytes →
      bytes.length = 8 → 2 ^ 63 ≤ fromLEBytes bytes →
      ∃ e, blockHeight dbx = Except.error e) := by
  refine ⟨by decide, ?_, ?_, ?_⟩
  · exact ⟨_, rfl, by decide⟩
  · obtain ⟨dF, hinit, hBH, _, _, _⟩ := initDB_empty_spec cs hnd
    refine ⟨dF, hinit, ?_⟩
    simp only [blockHeight, hBH]
    rfl
  · intro dbx bhx bytes h1 h2 h3 h4
    refine ⟨"negative height", ?_⟩
    simp only [blockHeight, h1, h2]
    rw [if_pos h3, if_pos h4]

/-- Witness for claim C4 at the same concrete genesis state. -/
theorem genesis_counter_underflow_witness :
    ((⟨List.replicate 32 3, [1], [2], List.replicate 32 4, []⟩ :
        BlockRoot).sfDiffs.map Prod.fst).Nodup ∧
    (genesisHeightInit = 2 ^ 64 - 1 ∧
    (∃ d1, initHeightStage (initBuckets []) = Except.ok d1 ∧
      pathHeightBytes d1 = some (marshalBlockHeight (2 ^ 64 - 1))) ∧
    (∃ dF, initDB ⟨List.replicate 32 3, [1], [2], List.replicate 32 4, []⟩ [] =
        Except.ok dF ∧ blockHeight dF = Except.ok 0) ∧
    (∀ dbx bhx bytes, dbGetBucket dbx BlockHeight = some bhx →
      bucketGet bhx BlockHeight = some bytes →
      bytes.length = 8 → 2 ^ 63 ≤ fromLEBytes bytes →
      ∃ e, blockHeight dbx = Except.error e)) :=
  ⟨by decide,
    genesis_counter_underflow ⟨List.replicate 32 3, [1], [2], List.replicate 32 4, []⟩
      (by decide)⟩
